import Mathlib

/-!
Shallow embedding of `rope/contrib/autoimport/parse.py`: functions that find
importable names from Python source files, packages and compiled modules.

Python files are modelled by their parse outcome (`FileContent`); the subset of
the Python AST that the code inspects is modelled by `Stmt` / `Target` / `Expr` /
`Elt`.  Exceptions that can escape the functions (an `OSError` from `open` on an
unreadable file, an arbitrary exception raised while importing a module at
runtime) are modelled with `Except PyExn`; exceptions the code catches
(`SyntaxError`, `AssertionError`, `AttributeError`, `ImportError`) are resolved
inside the definitions, exactly where the corresponding `try`/`except` sits in
the source.
-/

set_option autoImplicit false

namespace RopeParse

/-- The `Source` enum from `defs.py` (not part of the provided source);
records carry its `.value`. Modelled opaquely by that numeric value. -/
structure Source where
  value : Nat
deriving DecidableEq, Repr

/-- A `Name` record as built by the code: the tuple
`(name, modname, package, package_source.value)`. -/
abbrev Name := String × String × String × Nat

/-- Exceptions that escape the embedded functions uncaught:
`osError` is the `OSError` raised by `open` on an unreadable file
(`get_names_from_file` catches only `SyntaxError`); `importExn` is any
exception other than `ImportError` raised while importing a module at runtime
(`get_names_from_compiled` catches only `ImportError`). -/
inductive PyExn
  | osError
  | importExn
deriving DecidableEq, Repr

/-- An element of a list expression, as far as the code inspects it:
`ast.Constant` (whose `str(value)` we carry) or anything else. -/
inductive Elt
  | constant (value : String)
  | other
deriving DecidableEq, Repr

/-- The right-hand side of an assignment, as far as the code inspects it:
an `ast.List` literal or anything else. -/
inductive Expr
  | list (elts : List Elt)
  | other
deriving DecidableEq, Repr

/-- An assignment target: an `ast.Name` (with its identifier) or anything
else (tuple, attribute, subscript, ...). -/
inductive Target
  | name (id : String)
  | other
deriving DecidableEq, Repr

/-- A top-level statement, as far as `ast.iter_child_nodes` plus the
`isinstance` checks in `get_names_from_file` distinguish them. -/
inductive Stmt
  | assign (targets : List Target) (value : Expr)
  | functionDef (name : String)
  | classDef (name : String)
  | other
deriving DecidableEq, Repr

/-- Outcome of opening and parsing one file: `open` raises `OSError`
(unreadable), `ast.parse` raises `SyntaxError` (unparseable), or we get the
top-level statements of the syntax tree. -/
inductive FileContent
  | unreadable
  | unparseable
  | parsed (stmts : List Stmt)
deriving DecidableEq, Repr

/-- A filesystem path as `get_names` probes it: a directory (with its `*.py`
entries, as `(stem, content)` pairs in glob order — `__init__.py` exists iff an
entry has stem `__init__`), or a single file with its suffix. -/
inductive ModPath
  | dir (files : List (String × FileContent))
  | file (suffix : String) (content : FileContent)
deriving DecidableEq, Repr

/-- `parse_all` (parse.py lines 64-79).  Returns `none` when one of its two
`assert`s fails (the value is not an `ast.List`, or an element is not an
`ast.Constant`): the `AssertionError` discards the partial `all_results` and is
caught by the caller's `except (AttributeError, AssertionError)`. -/
def parse_all (value : Expr) (modname package : String) (package_source : Source) :
    Option (List Name) :=
  match value with
  | Expr.list elts =>
    elts.mapM (fun item =>
      match item with
      | Elt.constant v => some ((v, modname, package, package_source.value) : Name)
      | Elt.other => none)
  | Expr.other => none

/-- The `for target in node.targets` loop of `get_names_from_file`
(parse.py lines 108-116).  `Except.error res` models the early
`return parse_all(...)` (which succeeded); `Except.ok node_names` is the list
of identifiers collected from `ast.Name` targets.  A non-`Name` target fails
the `assert` and is skipped; a failing `parse_all` raises inside the `try` and
is likewise skipped by `except (AttributeError, AssertionError): pass`. -/
def assignTargetNames (targets : List Target) (value : Expr) (modname package : String)
    (package_source : Source) : Except (List Name) (List String) :=
  match targets with
  | [] => Except.ok []
  | Target.other :: rest => assignTargetNames rest value modname package package_source
  | Target.name id :: rest =>
    if id = "__all__" then
      match parse_all value modname package package_source with
      | some res => Except.error res
      | none => assignTargetNames rest value modname package package_source
    else
      match assignTargetNames rest value modname package package_source with
      | Except.error res => Except.error res
      | Except.ok names => Except.ok (id :: names)

/-- Python's `name.startswith("_")`: the first character is an underscore.
(Defined on the character list so that it evaluates by kernel reduction;
`String.startsWith` is extensionally the same test for a one-character
needle.) -/
def startswith_underscore (n : String) : Bool :=
  match n.data with
  | [] => false
  | c :: _ => c == '_'

/-- Python's `"_" in modname`: the substring test, which for a
one-character needle is containment of that character. -/
def contains_underscore (n : String) : Bool :=
  n.data.contains '_'

/-- The underscore-privacy filter applied to each collected name
(parse.py line 120): keep the name if `underlined or not name.startswith("_")`. -/
def keepName (underlined : Bool) (n : String) : Bool :=
  underlined || !(startswith_underscore n)

/-- The `for node in ast.iter_child_nodes(root_node)` loop of
`get_names_from_file` (parse.py lines 104-124), accumulating `results`.
A successful `__all__` parse returns immediately (bypassing the final
`if only_all: return []`); otherwise each node's collected names are filtered
by `keepName` and appended as records. -/
def get_names_from_file_loop (stmts : List Stmt) (modname package : String)
    (package_source : Source) (only_all underlined : Bool) (results : List Name) :
    List Name :=
  match stmts with
  | [] => if only_all then [] else results
  | node :: rest =>
    match node with
    | Stmt.assign targets value =>
      match assignTargetNames targets value modname package package_source with
      | Except.error res => res
      | Except.ok node_names =>
        get_names_from_file_loop rest modname package package_source only_all underlined
          (results ++ (node_names.filter (keepName underlined)).map
            (fun n => (n, modname, package, package_source.value)))
    | Stmt.functionDef name =>
      get_names_from_file_loop rest modname package package_source only_all underlined
        (results ++ (([name]).filter (keepName underlined)).map
          (fun n => (n, modname, package, package_source.value)))
    | Stmt.classDef name =>
      get_names_from_file_loop rest modname package package_source only_all underlined
        (results ++ (([name]).filter (keepName underlined)).map
          (fun n => (n, modname, package, package_source.value)))
    | Stmt.other =>
      get_names_from_file_loop rest modname package package_source only_all underlined results

/-- `get_names_from_file` (parse.py lines 82-124).  An unreadable file raises
`OSError` out of `open` (only `SyntaxError` is caught); a `SyntaxError` is
printed and yields `[]`; otherwise the top-level statements are processed. -/
def get_names_from_file (module : FileContent) (modname package : String)
    (package_source : Source) (only_all underlined : Bool) : Except PyExn (List Name) :=
  match module with
  | FileContent.unreadable => Except.error PyExn.osError
  | FileContent.unparseable => Except.ok []
  | FileContent.parsed stmts =>
    Except.ok (get_names_from_file_loop stmts modname package package_source
      only_all underlined [])

/-- `(modpath / "__init__.py").exists()` together with reading that file:
the first directory entry whose stem is `__init__`, if any. -/
def lookup_init (files : List (String × FileContent)) : Option FileContent :=
  match files with
  | [] => none
  | (stem, content) :: rest =>
    if stem = "__init__" then some content else lookup_init rest

/-- The `for file in modpath.glob("*.py")` loop of `get_names` (parse.py lines
45-55): extend `names` with each file's names under module name
`modname + "." + stem`, with `only_all` left at its default `False`. -/
def get_names_glob (files : List (String × FileContent)) (modname package_name : String)
    (package_source : Source) (underlined : Bool) : Except PyExn (List Name) :=
  match files with
  | [] => Except.ok []
  | (stem, content) :: rest => do
    let ns ← get_names_from_file content (modname ++ "." ++ stem) package_name
      package_source false underlined
    let more ← get_names_glob rest modname package_name package_source underlined
    Except.ok (ns ++ more)

/-- `get_names` (parse.py lines 22-61).  For a directory: if `__init__.py`
exists, extract it with `only_all=True` (and `underlined` left at its default
`False`); a non-empty result is returned as is, otherwise every `*.py` file in
the directory is scanned.  For a single file: scan it if its suffix is `.py`,
else return `[]`. -/
def get_names (modpath : ModPath) (modname package_name : String)
    (package_source : Source) (underlined : Bool) : Except PyExn (List Name) :=
  match modpath with
  | ModPath.dir files =>
    match lookup_init files with
    | some initContent => do
      let names ← get_names_from_file initContent modname package_name package_source
        true false
      if names.length > 0 then
        Except.ok names
      else
        get_names_glob files modname package_name package_source underlined
    | none => get_names_glob files modname package_name package_source underlined
  | ModPath.file suffix content =>
    if suffix = ".py" then
      get_names_from_file content modname package_name package_source false underlined
    else
      Except.ok []

/-- The `PackageType` enum from `defs.py` (not part of the provided source).
Modelled from the spec: a location is a single-file module, a compiled
extension, or a directory package (the remaining case of the classifier). -/
inductive PackageType
  | single_file
  | compiled
  | standard
deriving DecidableEq, Repr

/-- Modelled from the spec: the utility functions `get_package_name_from_path`,
`get_package_source`, `submodules` and `get_modname_from_path` live in
`utils.py`, which is not part of the provided source.  A `PackagePath` bundles
a package root path with the results of those queries on it: the classifier's
`(package_name, package_type)` outcome (`none` when the path is not a
recognized package), the derived provenance, the enumerated submodule paths
paired with their computed dotted module names, and the root itself viewed as
a `ModPath` for `get_names`. -/
structure PackagePath where
  package_tuple : Option (String × PackageType)
  path_source : Source
  subs : List (ModPath × String)
  as_modpath : ModPath
deriving Repr

/-- The `for module in modules` loop of `find_all_names_in_package`
(parse.py lines 164-168): extend `result` with `get_names` of each collected
`(path, modname)` pair. -/
def names_of_modules (modules : List (ModPath × String)) (package_name : String)
    (package_source : Source) (underlined : Bool) : Except PyExn (List Name) :=
  match modules with
  | [] => Except.ok []
  | m :: rest => do
    let ns ← get_names m.1 m.2 package_name package_source underlined
    let more ← names_of_modules rest package_name package_source underlined
    Except.ok (ns ++ more)

/-- `find_all_names_in_package` (parse.py lines 127-169).  An unrecognized
path yields `[]`; a missing `package_source` is derived from the path; a
single-file package contributes itself; a compiled package returns `[]`
immediately; a directory package enumerates submodules when `recursive`,
skipping a submodule when `underlined or "_" in modname` (the code's
`modname.__contains__("_")` substring test, here a single-character
containment), and otherwise contributes the whole directory. -/
def find_all_names_in_package (package_path : PackagePath) (recursive : Bool)
    (package_source : Option Source) (underlined : Bool) : Except PyExn (List Name) :=
  match package_path.package_tuple with
  | none => Except.ok []
  | some (package_name, package_type) =>
    let pkg_source := package_source.getD package_path.path_source
    match package_type with
    | PackageType.single_file =>
      names_of_modules [(package_path.as_modpath, package_name)] package_name
        pkg_source underlined
    | PackageType.compiled => Except.ok []
    | PackageType.standard =>
      if recursive then
        names_of_modules
          (package_path.subs.filter (fun sub => !(underlined || contains_underscore sub.2)))
          package_name pkg_source underlined
      else
        names_of_modules [(package_path.as_modpath, package_name)] package_name
          pkg_source underlined

/-- The kind of a module member as the `inspect` predicates in
`get_names_from_compiled` distinguish it: a class, a function, a built-in
(natively implemented) callable, or anything else. -/
inductive MemberKind
  | isClass
  | isFunction
  | isBuiltin
  | otherMember
deriving DecidableEq, Repr

/-- A loaded runtime module as `get_names_from_compiled` inspects it: its
`__all__` attribute when present (`hasattr(module, "__all__")`), and its
`inspect.getmembers` listing of `(name, kind)` pairs. -/
structure RuntimeModule where
  dunder_all : Option (List String)
  members : List (String × MemberKind)
deriving DecidableEq, Repr

/-- Outcome of `import_module`: success, an `ImportError` (caught by the
code), or any other exception raised while the module initializes
(not caught). -/
inductive ImportResult
  | ok (m : RuntimeModule)
  | importError
  | otherExn
deriving Repr

/-- `inspect.isclass(value) or inspect.isfunction(value) or
inspect.isbuiltin(value)` (parse.py lines 205-209). -/
def is_class_function_or_builtin (kind : MemberKind) : Bool :=
  match kind with
  | MemberKind.isClass => true
  | MemberKind.isFunction => true
  | MemberKind.isBuiltin => true
  | MemberKind.otherMember => false

/-- `get_names_from_compiled` (parse.py lines 172-211).  The runtime's import
machinery is passed in as `runtime`.  A banned or (unless `underlined`)
underscore-prefixed package yields `[]` before any import; an `ImportError`
yields `[]`; any other import-time exception propagates; a module with
`__all__` emits exactly those names unfiltered; otherwise public
class/function/builtin members are emitted. -/
def get_names_from_compiled (runtime : String → ImportResult) (package : String)
    (source : Source) (underlined : Bool) : Except PyExn (List Name) :=
  let banned := ["builtins", "python_crun"]
  if banned.contains package || (startswith_underscore package && !underlined) then
    Except.ok []
  else
    match runtime package with
    | ImportResult.importError => Except.ok []
    | ImportResult.otherExn => Except.error PyExn.importExn
    | ImportResult.ok module =>
      match module.dunder_all with
      | some alls =>
        Except.ok (alls.map (fun name => (name, package, package, source.value)))
      | none =>
        Except.ok (module.members.filterMap (fun member =>
          if keepName underlined member.1 && is_class_function_or_builtin member.2 then
            some ((member.1, package, package, source.value) : Name)
          else
            none))

end RopeParse

/-! ## Derived notions used in the statements -/

namespace RopeParse

/-- The identifiers among a list of assignment targets that are plain
`ast.Name` targets, in order. -/
def targetIds (targets : List Target) : List String :=
  targets.filterMap (fun t =>
    match t with
    | Target.name id => some id
    | Target.other => none)

/-- The identifiers a top-level statement contributes to `node_names` in
`get_names_from_file` when no `__all__` return interferes. -/
def nodeNames (s : Stmt) : List String :=
  match s with
  | Stmt.assign targets _ => targetIds targets
  | Stmt.functionDef n => [n]
  | Stmt.classDef n => [n]
  | Stmt.other => []

/-- Whether a top-level statement is an assignment with `__all__` among its
plain `ast.Name` targets. -/
def hasAllTarget (s : Stmt) : Bool :=
  match s with
  | Stmt.assign targets _ => targetIds targets |>.contains "__all__"
  | _ => false

/-- The string carried by a constant element (`str(item.value)`). -/
def eltValue (e : Elt) : String :=
  match e with
  | Elt.constant v => v
  | Elt.other => ""

/-- Whether a list element is a literal constant. -/
def isConstant (e : Elt) : Bool :=
  match e with
  | Elt.constant _ => true
  | Elt.other => false

end RopeParse

/-! ## Concrete fixtures used in closed statements -/

namespace RopeParse

/-- A directory package with a single submodule named `modname` whose file
defines one public function `bar`. -/
def demo_package (modname : String) : PackagePath :=
  { package_tuple := some ("demo", PackageType.standard)
    path_source := { value := 0 }
    subs := [(ModPath.file ".py" (FileContent.parsed [Stmt.functionDef "bar"]), modname)]
    as_modpath := ModPath.dir [] }

/-- A package root classified as a compiled extension named `m`. -/
def compiled_package : PackagePath :=
  { package_tuple := some ("m", PackageType.compiled)
    path_source := { value := 0 }
    subs := []
    as_modpath := ModPath.file ".so" FileContent.unreadable }

/-- A runtime in which every module loads and exports exactly `x`. -/
def demo_runtime : String → ImportResult :=
  fun _ => ImportResult.ok { dunder_all := some ["x"], members := [] }

/-- A runtime in which importing any module raises an exception that is not an
`ImportError`. -/
def failing_runtime : String → ImportResult :=
  fun _ => ImportResult.otherExn

/-- An initializer that assigns an empty explicit export list and then defines
a public function `ini`. -/
def init_stmts_with_empty_all : List Stmt :=
  [Stmt.assign [Target.name "__all__"] (Expr.list []), Stmt.functionDef "ini"]

end RopeParse

/-! ## Helper lemmas -/

namespace RopeParse

theorem parse_all_of_constants (elts : List Elt) (m p : String) (ps : Source)
    (h : ∀ e ∈ elts, isConstant e = true) :
    parse_all (Expr.list elts) m p ps
      = some (elts.map (fun e => (eltValue e, m, p, ps.value))) := by
  induction elts with
  | nil => rfl
  | cons e rest ih =>
    have ih2 := ih (fun x hx => h x (List.mem_cons_of_mem _ hx))
    cases e with
    | other => exact absurd (h Elt.other (List.mem_cons_self _ _)) (by simp [isConstant])
    | constant v =>
      simp only [parse_all] at ih2
      simp only [parse_all, List.mapM_cons, ih2, eltValue, List.map_cons]
      rfl

end RopeParse

namespace RopeParse

theorem assignTargetNames_of_mem_all (targets : List Target) (v : Expr) (m p : String)
    (ps : Source) (L : List Name)
    (hmem : "__all__" ∈ targetIds targets)
    (hparse : parse_all v m p ps = some L) :
    assignTargetNames targets v m p ps = Except.error L := by
  induction targets with
  | nil => simp [targetIds] at hmem
  | cons t rest ih =>
    cases t with
    | other =>
      simp only [targetIds, List.filterMap_cons] at hmem
      exact ih hmem
    | name id =>
      simp only [targetIds, List.filterMap_cons] at hmem
      by_cases hid : id = "__all__"
      · subst hid
        simp [assignTargetNames, hparse]
      · simp only [assignTargetNames, if_neg hid]
        have h2 : "__all__" ∈ targetIds rest := by
          rcases List.mem_cons.mp hmem with h | h
          · exact absurd h.symm hid
          · exact h
        rw [ih h2]

end RopeParse


namespace RopeParse

theorem assignTargetNames_of_not_mem_all (targets : List Target) (v : Expr) (m p : String)
    (ps : Source)
    (hmem : "__all__" ∉ targetIds targets) :
    assignTargetNames targets v m p ps = Except.ok (targetIds targets) := by
  induction targets with
  | nil => rfl
  | cons t rest ih =>
    cases t with
    | other =>
      simp only [targetIds, List.filterMap_cons] at hmem ⊢
      exact ih hmem
    | name id =>
      simp only [targetIds, List.filterMap_cons] at hmem ⊢
      have hid : ¬(id = "__all__") := fun he => hmem (he ▸ List.mem_cons_self _ _)
      have h2 : "__all__" ∉ targetIds rest := fun h => hmem (List.mem_cons_of_mem _ h)
      simp only [assignTargetNames, if_neg hid, ih h2]
      rfl

/-- With no `__all__` target anywhere, the node loop appends, in declaration
order, each node's collected names filtered by the privacy predicate — unless
`only_all` was requested, in which case it ends with `[]`. -/
theorem get_names_from_file_loop_no_all (stmts : List Stmt) (m p : String) (ps : Source)
    (oa u : Bool) (acc : List Name)
    (h : ∀ s ∈ stmts, hasAllTarget s = false) :
    get_names_from_file_loop stmts m p ps oa u acc
      = if oa then [] else
          acc ++ (((stmts.map nodeNames).flatten.filter (keepName u)).map
            (fun n => (n, m, p, ps.value))) := by
  induction stmts generalizing acc with
  | nil => simp [get_names_from_file_loop]
  | cons s rest ih =>
    have hs := h s (List.mem_cons_self _ _)
    have hrest : ∀ x ∈ rest, hasAllTarget x = false :=
      fun x hx => h x (List.mem_cons_of_mem _ hx)
    cases s with
    | assign targets v =>
      have hnot : "__all__" ∉ targetIds targets := by
        simp only [hasAllTarget, List.contains] at hs
        intro hin
        rw [List.elem_iff.mpr hin] at hs
        exact Bool.noConfusion hs
      simp only [get_names_from_file_loop,
        assignTargetNames_of_not_mem_all targets v m p ps hnot, ih _ hrest, nodeNames,
        List.map_cons, List.flatten_cons, List.filter_append, List.map_append,
        List.append_assoc]
    | functionDef n =>
      simp only [get_names_from_file_loop, ih _ hrest, nodeNames, List.map_cons,
        List.flatten_cons, List.filter_append, List.map_append, List.append_assoc]
    | classDef n =>
      simp only [get_names_from_file_loop, ih _ hrest, nodeNames, List.map_cons,
        List.flatten_cons, List.filter_append, List.map_append, List.append_assoc]
    | other =>
      simp only [get_names_from_file_loop, ih _ hrest, nodeNames, List.map_cons,
        List.flatten_cons, List.filter_nil, List.nil_append, List.map_nil,
        List.append_nil]

end RopeParse

namespace RopeParse

/-- Processing a prefix with no `__all__` target and then an assignment whose
`parse_all` succeeds returns exactly the parsed list, whatever came before or
comes after and whatever the flags are. -/
theorem get_names_from_file_loop_all_return (pre post : List Stmt) (targets : List Target)
    (v : Expr) (L : List Name) (m p : String) (ps : Source) (oa u : Bool) (acc : List Name)
    (hPre : ∀ s ∈ pre, hasAllTarget s = false)
    (hAll : "__all__" ∈ targetIds targets)
    (hParse : parse_all v m p ps = some L) :
    get_names_from_file_loop (pre ++ Stmt.assign targets v :: post) m p ps oa u acc = L := by
  induction pre generalizing acc with
  | nil =>
    simp only [List.nil_append, get_names_from_file_loop,
      assignTargetNames_of_mem_all targets v m p ps L hAll hParse]
  | cons s rest ih =>
    have hs := hPre s (List.mem_cons_self _ _)
    have hrest : ∀ x ∈ rest, hasAllTarget x = false :=
      fun x hx => hPre x (List.mem_cons_of_mem _ hx)
    cases s with
    | assign targets2 v2 =>
      have hnot : "__all__" ∉ targetIds targets2 := by
        simp only [hasAllTarget, List.contains] at hs
        intro hin
        rw [List.elem_iff.mpr hin] at hs
        exact Bool.noConfusion hs
      simp only [List.cons_append, get_names_from_file_loop,
        assignTargetNames_of_not_mem_all targets2 v2 m p ps hnot]
      exact ih _ hrest
    | functionDef n =>
      simp only [List.cons_append, get_names_from_file_loop]
      exact ih _ hrest
    | classDef n =>
      simp only [List.cons_append, get_names_from_file_loop]
      exact ih _ hrest
    | other =>
      simp only [List.cons_append, get_names_from_file_loop]
      exact ih _ hrest

end RopeParse

namespace RopeParse

/-- The glob loop is the monadic map of per-file extraction followed by
concatenation. -/
theorem get_names_glob_eq_mapM (files : List (String × FileContent)) (m p : String)
    (ps : Source) (u : Bool) :
    get_names_glob files m p ps u
      = (files.mapM (fun f => get_names_from_file f.2 (m ++ "." ++ f.1) p ps false u)).map
          List.flatten := by
  induction files with
  | nil => rfl
  | cons f rest ih =>
    obtain ⟨stem, content⟩ := f
    simp only [get_names_glob, List.mapM_cons]
    rw [ih]
    cases hf : get_names_from_file content (m ++ "." ++ stem) p ps false u with
    | error e => rfl
    | ok ns =>
      cases hrest : rest.mapM (fun f => get_names_from_file f.2 (m ++ "." ++ f.1) p ps false u) with
      | error e => rfl
      | ok tails => rfl

/-- Unfolding of the glob loop on a cons cell. -/
theorem get_names_glob_cons (stem : String) (content : FileContent)
    (rest : List (String × FileContent)) (m p : String) (ps : Source) (u : Bool) :
    get_names_glob ((stem, content) :: rest) m p ps u = (do
      let ns ← get_names_from_file content (m ++ "." ++ stem) p ps false u
      let more ← get_names_glob rest m p ps u
      Except.ok (ns ++ more)) := rfl

/-- The glob loop over a concatenation of directory listings. -/
theorem get_names_glob_append (A B : List (String × FileContent)) (m p : String)
    (ps : Source) (u : Bool) :
    get_names_glob (A ++ B) m p ps u = (do
      let la ← get_names_glob A m p ps u
      let lb ← get_names_glob B m p ps u
      Except.ok (la ++ lb)) := by
  induction A with
  | nil =>
    rw [List.nil_append]
    cases hb : get_names_glob B m p ps u with
    | error e => rfl
    | ok lb => rfl
  | cons f rest ih =>
    obtain ⟨stem, content⟩ := f
    rw [List.cons_append, get_names_glob_cons, get_names_glob_cons, ih]
    cases hf : get_names_from_file content (m ++ "." ++ stem) p ps false u with
    | error e => rfl
    | ok ns =>
      cases hrest : get_names_glob rest m p ps u with
      | error e => rfl
      | ok lr =>
        cases hb : get_names_glob B m p ps u with
        | error e => rfl
        | ok lb =>
          show (Except.ok (ns ++ (lr ++ lb)) : Except PyExn (List Name))
            = Except.ok ((ns ++ lr) ++ lb)
          rw [List.append_assoc]

/-- `__init__.py` is found in a listing whose earlier entries all have other
stems. -/
theorem lookup_init_append (F1 F2 : List (String × FileContent)) (c : FileContent)
    (h : ∀ f ∈ F1, f.1 ≠ "__init__") :
    lookup_init (F1 ++ ("__init__", c) :: F2) = some c := by
  induction F1 with
  | nil => simp [lookup_init]
  | cons f rest ih =>
    obtain ⟨stem, content⟩ := f
    have hne : stem ≠ "__init__" := h (stem, content) (List.mem_cons_self _ _)
    simp only [List.cons_append, lookup_init, if_neg hne]
    exact ih (fun x hx => h x (List.mem_cons_of_mem _ hx))

/-- Removing an entry that is not `__init__.py` does not change which file the
initializer probe finds. -/
theorem lookup_init_erase (F1 F2 : List (String × FileContent)) (s : String)
    (c : FileContent) (h : s ≠ "__init__") :
    lookup_init (F1 ++ (s, c) :: F2) = lookup_init (F1 ++ F2) := by
  induction F1 with
  | nil => simp [lookup_init, if_neg h]
  | cons f rest ih =>
    obtain ⟨stem, content⟩ := f
    by_cases hs : stem = "__init__"
    · simp [lookup_init, hs]
    · simp only [List.cons_append, lookup_init, if_neg hs]
      exact ih

end RopeParse

namespace RopeParse

theorem get_names_glob_unparseable_cons (s : String) (F : List (String × FileContent))
    (m p : String) (ps : Source) (u : Bool) :
    get_names_glob ((s, FileContent.unparseable) :: F) m p ps u
      = get_names_glob F m p ps u := by
  rw [get_names_glob_cons]
  cases h2 : get_names_glob F m p ps u with
  | error e => rfl
  | ok lb =>
    show (Except.ok ([] ++ lb) : Except PyExn (List Name)) = Except.ok lb
    rw [List.nil_append]

/-- C1: for every source file whose top-level statements include an assignment
to the explicit-export-list identifier `__all__` whose right-hand side is a
literal list of literal string constants (and no earlier top-level assignment
targets `__all__`), `get_names_from_file` returns exactly the names of that
list, each paired with the given module name, package name and provenance,
ignoring every other top-level declaration of the file and applying no
underscore-privacy filtering, whatever the `underlined` (and `only_all`)
flags are. -/
theorem get_names_from_file_explicit_export_list
    (pre post : List Stmt) (targets : List Target) (elts : List Elt)
    (m p : String) (ps : Source) (oa u : Bool)
    (hPre : ∀ s ∈ pre, hasAllTarget s = false)
    (hAll : "__all__" ∈ targetIds targets)
    (hConst : ∀ e ∈ elts, isConstant e = true) :
    get_names_from_file
        (FileContent.parsed (pre ++ Stmt.assign targets (Expr.list elts) :: post))
        m p ps oa u
      = Except.ok (elts.map (fun e => (eltValue e, m, p, ps.value))) := by
  simp only [get_names_from_file]
  rw [get_names_from_file_loop_all_return pre post targets (Expr.list elts) _ m p ps oa u []
    hPre hAll (parse_all_of_constants elts m p ps hConst)]

theorem get_names_from_file_explicit_export_list_witness :
    get_names_from_file
        (FileContent.parsed
          ([Stmt.functionDef "foo", Stmt.classDef "Bar",
            Stmt.assign [Target.name "_hidden"] Expr.other]
            ++ Stmt.assign [Target.name "__all__"]
                 (Expr.list [Elt.constant "_private", Elt.constant "x"])
              :: [Stmt.functionDef "zzz"]))
        "m" "p" { value := 7 } false false
      = Except.ok [("_private", "m", "p", 7), ("x", "m", "p", 7)] :=
  get_names_from_file_explicit_export_list
    [Stmt.functionDef "foo", Stmt.classDef "Bar",
      Stmt.assign [Target.name "_hidden"] Expr.other]
    [Stmt.functionDef "zzz"]
    [Target.name "__all__"]
    [Elt.constant "_private", Elt.constant "x"]
    "m" "p" { value := 7 } false false
    (by decide) (by decide) (by decide)

/-- C6: for a source file none of whose top-level assignments targets
`__all__`, when `underlined` is false no returned name starts with an
underscore, and when `underlined` is true every top-level declaration's name
(underscore-prefixed or not) is returned (the `only_all` flag left at its
default `false` for the inclusion part). -/
theorem get_names_from_file_privacy_filter (stmts : List Stmt) (m p : String) (ps : Source)
    (hNoAll : ∀ s ∈ stmts, hasAllTarget s = false) :
    (∀ (oa : Bool) (l : List Name) (r : Name),
        get_names_from_file (FileContent.parsed stmts) m p ps oa false = Except.ok l →
        r ∈ l → startswith_underscore r.1 = false)
    ∧ (∀ (l : List Name),
        get_names_from_file (FileContent.parsed stmts) m p ps false true = Except.ok l →
        ∀ s ∈ stmts, ∀ n ∈ nodeNames s, (n, m, p, ps.value) ∈ l) := by
  constructor
  · intro oa l r hok hr
    simp only [get_names_from_file] at hok
    rw [get_names_from_file_loop_no_all stmts m p ps oa false [] hNoAll] at hok
    cases oa with
    | true =>
      simp only [if_pos rfl] at hok
      cases hok
      exact absurd hr (List.not_mem_nil r)
    | false =>
      simp only [if_neg Bool.false_ne_true, List.nil_append] at hok
      cases hok
      obtain ⟨n, hn, rfl⟩ := List.mem_map.mp hr
      have := (List.mem_filter.mp hn).2
      simp only [keepName, Bool.false_or, Bool.not_eq_true'] at this
      exact this
  · intro l hok s hs n hn
    simp only [get_names_from_file] at hok
    rw [get_names_from_file_loop_no_all stmts m p ps false true [] hNoAll] at hok
    simp only [if_neg Bool.false_ne_true, List.nil_append] at hok
    cases hok
    apply List.mem_map_of_mem
    rw [List.mem_filter]
    constructor
    · exact List.mem_flatten.mpr ⟨nodeNames s, List.mem_map_of_mem nodeNames hs, hn⟩
    · simp [keepName]

theorem get_names_from_file_privacy_filter_witness :
    startswith_underscore (("foo", "m", "p", 3) : Name).1 = false
    ∧ (("_hidden", "m", "p", 3) : Name)
        ∈ [("foo", "m", "p", 3), ("Bar", "m", "p", 3), ("_hidden", "m", "p", 3)] :=
  ⟨(get_names_from_file_privacy_filter
      [Stmt.functionDef "foo", Stmt.classDef "Bar",
        Stmt.assign [Target.name "_hidden"] Expr.other]
      "m" "p" { value := 3 } (by decide)).1 false
      [("foo", "m", "p", 3), ("Bar", "m", "p", 3)] ("foo", "m", "p", 3) rfl (by decide),
   (get_names_from_file_privacy_filter
      [Stmt.functionDef "foo", Stmt.classDef "Bar",
        Stmt.assign [Target.name "_hidden"] Expr.other]
      "m" "p" { value := 3 } (by decide)).2
      [("foo", "m", "p", 3), ("Bar", "m", "p", 3), ("_hidden", "m", "p", 3)] rfl
      (Stmt.assign [Target.name "_hidden"] Expr.other) (by decide) "_hidden" (by decide)⟩

end RopeParse

namespace RopeParse

/-- C4: for a directory package whose initializer is present and yields a
non-empty result when extracted with `only_all = true`, `get_names` returns
exactly that result; the sibling files (arbitrary here) are never consulted. -/
theorem get_names_init_export_supersedes_siblings
    (files : List (String × FileContent)) (init : FileContent) (L : List Name)
    (m p : String) (ps : Source) (u : Bool)
    (hInit : lookup_init files = some init)
    (hExtract : get_names_from_file init m p ps true false = Except.ok L)
    (hNe : L ≠ []) :
    get_names (ModPath.dir files) m p ps u = Except.ok L := by
  simp only [get_names]
  rw [hInit]
  show (do
      let names ← get_names_from_file init m p ps true false
      if names.length > 0 then Except.ok names
      else get_names_glob files m p ps u) = Except.ok L
  rw [hExtract]
  show (if 0 < L.length then (Except.ok L : Except PyExn (List Name))
    else get_names_glob files m p ps u) = Except.ok L
  rw [if_pos (List.length_pos.mpr hNe)]

theorem get_names_init_export_supersedes_siblings_witness :
    get_names (ModPath.dir
        [("__init__", FileContent.parsed
            [Stmt.assign [Target.name "__all__"] (Expr.list [Elt.constant "a"])]),
          ("sib", FileContent.parsed [Stmt.functionDef "extra"])])
        "pkg" "pkg" { value := 2 } false
      = Except.ok [("a", "pkg", "pkg", 2)] :=
  get_names_init_export_supersedes_siblings
    [("__init__", FileContent.parsed
        [Stmt.assign [Target.name "__all__"] (Expr.list [Elt.constant "a"])]),
      ("sib", FileContent.parsed [Stmt.functionDef "extra"])]
    (FileContent.parsed [Stmt.assign [Target.name "__all__"] (Expr.list [Elt.constant "a"])])
    [("a", "pkg", "pkg", 2)] "pkg" "pkg" { value := 2 } false rfl rfl (by decide)

/-- C5: for a directory package whose initializer is absent, or whose
initializer yields no names under `only_all = true` extraction, `get_names`
returns the concatenation, in directory-enumeration order, of every contained
file's own extraction under the module name `modname.stem`. -/
theorem get_names_dir_fallthrough_concatenates
    (files : List (String × FileContent)) (m p : String) (ps : Source) (u : Bool)
    (h : lookup_init files = none
         ∨ ∃ init, lookup_init files = some init
             ∧ get_names_from_file init m p ps true false = Except.ok []) :
    get_names (ModPath.dir files) m p ps u
      = (files.mapM
          (fun f => get_names_from_file f.2 (m ++ "." ++ f.1) p ps false u)).map
          List.flatten := by
  rcases h with h | ⟨init, hinit, hext⟩
  · simp only [get_names]
    rw [h]
    exact get_names_glob_eq_mapM files m p ps u
  · simp only [get_names]
    rw [hinit]
    show (do
        let names ← get_names_from_file init m p ps true false
        if names.length > 0 then Except.ok names
        else get_names_glob files m p ps u) = _
    rw [hext]
    exact get_names_glob_eq_mapM files m p ps u

theorem get_names_dir_fallthrough_concatenates_witness :
    get_names (ModPath.dir
        [("a", FileContent.parsed [Stmt.functionDef "f"]), ("b", FileContent.unparseable)])
        "m" "p" { value := 0 } false
      = (([("a", FileContent.parsed [Stmt.functionDef "f"]), ("b", FileContent.unparseable)]).mapM
          (fun f => get_names_from_file f.2 ("m" ++ "." ++ f.1) "p" { value := 0 } false false)).map
          List.flatten :=
  get_names_dir_fallthrough_concatenates
    [("a", FileContent.parsed [Stmt.functionDef "f"]), ("b", FileContent.unparseable)]
    "m" "p" { value := 0 } false (Or.inl rfl)

end RopeParse

namespace RopeParse

/-- C10 (counterexample): a directory package whose initializer assigns
`__all__ = []` and then defines a public function `ini` yields no names under
`only_all = true` extraction (the claim's hypothesis), yet the full directory
result is empty: the per-file rescan of the initializer hits the empty
explicit export list again, so the initializer's convention-public
declaration `ini` is NOT emitted. -/
theorem get_names_dir_init_empty_all_suppresses_decls :
    get_names_from_file (FileContent.parsed init_stmts_with_empty_all)
        "pkg" "pkg" { value := 1 } true false
      = Except.ok []
    ∧ get_names (ModPath.dir [("__init__", FileContent.parsed init_stmts_with_empty_all)])
        "pkg" "pkg" { value := 1 } false
      = Except.ok []
    ∧ (("ini", "pkg.__init__", "pkg", 1) : Name) ∉ ([] : List Name) :=
  ⟨rfl, rfl, by simp⟩

/-- C10 (amended): when a directory package's initializer yields no
explicit-export names and moreover contains no `__all__`-targeted assignment
at all, the per-file scan iterates every `*.py` entry of the directory
including the initializer itself, so every convention-public top-level
declaration of the initializer is emitted as a record whose defining module is
the package's dotted name followed by the literal segment `__init__`. -/
theorem get_names_dir_scan_includes_init
    (F1 F2 : List (String × FileContent)) (initStmts : List Stmt)
    (m p : String) (ps : Source) (u : Bool) (res : List Name)
    (hF1 : ∀ f ∈ F1, f.1 ≠ "__init__")
    (hNoAll : ∀ s ∈ initStmts, hasAllTarget s = false)
    (hRes : get_names
        (ModPath.dir (F1 ++ ("__init__", FileContent.parsed initStmts) :: F2))
        m p ps u = Except.ok res) :
    ∀ s ∈ initStmts, ∀ n ∈ nodeNames s, keepName u n = true →
      (n, m ++ ".__init__", p, ps.value) ∈ res := by
  intro s hs n hn hkeep
  have hlook := lookup_init_append F1 F2 (FileContent.parsed initStmts) hF1
  simp only [get_names] at hRes
  rw [hlook] at hRes
  have hRes2 : (do
      let names ← get_names_from_file (FileContent.parsed initStmts) m p ps true false
      if names.length > 0 then Except.ok names
      else (get_names_glob
        (F1 ++ ("__init__", FileContent.parsed initStmts) :: F2) m p ps u))
      = Except.ok res := hRes
  have hext : get_names_from_file (FileContent.parsed initStmts) m p ps true false
      = Except.ok [] := by
    simp only [get_names_from_file]
    rw [get_names_from_file_loop_no_all initStmts m p ps true false [] hNoAll]
    simp
  rw [hext] at hRes2
  have hglob : get_names_glob (F1 ++ ("__init__", FileContent.parsed initStmts) :: F2)
      m p ps u = Except.ok res := hRes2
  rw [get_names_glob_append, get_names_glob_cons] at hglob
  have hmid : get_names_from_file (FileContent.parsed initStmts)
      (m ++ "." ++ "__init__") p ps false u
      = Except.ok (((initStmts.map nodeNames).flatten.filter (keepName u)).map
          (fun x => (x, m ++ "." ++ "__init__", p, ps.value))) := by
    simp only [get_names_from_file]
    rw [get_names_from_file_loop_no_all initStmts (m ++ "." ++ "__init__") p ps false u []
      hNoAll]
    rfl
  rw [hmid] at hglob
  cases h1 : get_names_glob F1 m p ps u with
  | error e =>
    rw [h1] at hglob
    exact Except.noConfusion hglob
  | ok r1 =>
    rw [h1] at hglob
    cases h2 : get_names_glob F2 m p ps u with
    | error e =>
      rw [h2] at hglob
      exact Except.noConfusion hglob
    | ok r2 =>
      rw [h2] at hglob
      have hres2 : r1 ++ (((initStmts.map nodeNames).flatten.filter (keepName u)).map
          (fun x => (x, m ++ "." ++ "__init__", p, ps.value)) ++ r2) = res :=
        Except.ok.inj hglob
      have hdot : m ++ "." ++ "__init__" = m ++ ".__init__" := by
        rw [String.append_assoc, show ("." ++ "__init__" : String) = ".__init__" from rfl]
      rw [← hres2, ← hdot]
      apply List.mem_append_right
      apply List.mem_append_left
      apply List.mem_map_of_mem
      rw [List.mem_filter]
      exact ⟨List.mem_flatten.mpr ⟨nodeNames s, List.mem_map_of_mem nodeNames hs, hn⟩, hkeep⟩

theorem get_names_dir_scan_includes_init_witness :
    (("ini", "pkg.__init__", "pkg", 1) : Name)
      ∈ [(("sib", "pkg.aaa", "pkg", 1) : Name), ("ini", "pkg.__init__", "pkg", 1)] :=
  get_names_dir_scan_includes_init
    [("aaa", FileContent.parsed [Stmt.functionDef "sib"])] []
    [Stmt.functionDef "ini"] "pkg" "pkg" { value := 1 } false
    [("sib", "pkg.aaa", "pkg", 1), ("ini", "pkg.__init__", "pkg", 1)]
    (by decide) (by decide) rfl
    (Stmt.functionDef "ini") (by decide) "ini" (by decide) (by decide)

end RopeParse

namespace RopeParse

/-- C2: evaluation of the orchestrator at the failing input.  The directory
package `demo` has one submodule with dotted name `foo` — no underscore
anywhere.  With `underlined = true` the recursive scan skips it (the condition
`underlined or "_" in modname` holds for every module), returning no names,
while with `underlined = false` the very same submodule is included: the flag
inverts the documented intent ("include underlined directories") instead of
adding private submodules. -/
theorem find_all_names_in_package_underlined_inversion :
    find_all_names_in_package (demo_package "foo") true none true = Except.ok []
    ∧ find_all_names_in_package (demo_package "foo") true none false
        = Except.ok [("bar", "foo", "demo", 0)] :=
  ⟨rfl, rfl⟩

/-- C3 (counterexample): a package root classified as a compiled extension is
answered with an empty list by the orchestrator, even in a runtime where the
Reflective Extractor would return a name — the orchestrator does not delegate
to `get_names_from_compiled`. -/
theorem find_all_names_in_package_compiled_not_delegating :
    find_all_names_in_package compiled_package true none false = Except.ok []
    ∧ get_names_from_compiled demo_runtime "m" { value := 0 } false
        = Except.ok [("x", "m", "m", 0)]
    ∧ (Except.ok [] : Except PyExn (List Name)) ≠ Except.ok [("x", "m", "m", 0)] :=
  ⟨rfl, rfl, by simp⟩

/-- C3 (amended): for every package root classified as a compiled extension,
the orchestrator returns an empty result immediately, attempting neither
source walking nor reflective extraction. -/
theorem find_all_names_in_package_compiled_empty (pkg : PackagePath) (name : String)
    (recursive : Bool) (psrc : Option Source) (u : Bool)
    (h : pkg.package_tuple = some (name, PackageType.compiled)) :
    find_all_names_in_package pkg recursive psrc u = Except.ok [] := by
  simp [find_all_names_in_package, h]

theorem find_all_names_in_package_compiled_empty_witness :
    find_all_names_in_package compiled_package false none true = Except.ok [] :=
  find_all_names_in_package_compiled_empty compiled_package "m" false none true rfl

/-- C7 (counterexample): an unreadable file raises out of the extractor
(`open` is outside the `try`, which catches only `SyntaxError`); scanning a
directory that contains an unreadable file aborts the whole run — the later
sibling `good` is never reached. -/
theorem get_names_from_file_unreadable_aborts :
    get_names_from_file FileContent.unreadable "mod" "pkg" { value := 0 } false false
      = Except.error PyExn.osError
    ∧ get_names (ModPath.dir [("bad", FileContent.unreadable),
        ("good", FileContent.parsed [Stmt.functionDef "f"])]) "pkg" "pkg" { value := 0 } false
      = Except.error PyExn.osError :=
  ⟨rfl, rfl⟩

/-- C7 (amended): a syntactically invalid file yields an empty result from the
extractor (the `SyntaxError` is reported and swallowed), and the presence of
such a file anywhere in a directory scan leaves the rest of the run
unchanged — unreadable files, by contrast, propagate (see the
counterexample). -/
theorem get_names_from_file_syntax_error_recovered
    (F1 F2 : List (String × FileContent)) (s m p : String) (ps : Source)
    (oa u : Bool) (hs : s ≠ "__init__") :
    get_names_from_file FileContent.unparseable m p ps oa u = Except.ok []
    ∧ get_names (ModPath.dir (F1 ++ (s, FileContent.unparseable) :: F2)) m p ps u
      = get_names (ModPath.dir (F1 ++ F2)) m p ps u := by
  refine ⟨rfl, ?_⟩
  have hglob : get_names_glob (F1 ++ (s, FileContent.unparseable) :: F2) m p ps u
      = get_names_glob (F1 ++ F2) m p ps u := by
    rw [get_names_glob_append, get_names_glob_append, get_names_glob_unparseable_cons]
  simp only [get_names]
  rw [lookup_init_erase F1 F2 s FileContent.unparseable hs]
  cases hl : lookup_init (F1 ++ F2) with
  | none => exact hglob
  | some init => rw [hglob]

theorem get_names_from_file_syntax_error_recovered_witness :
    get_names_from_file FileContent.unparseable "m" "p" { value := 0 } false false
      = Except.ok []
    ∧ get_names (ModPath.dir ([] ++ ("bad", FileContent.unparseable)
          :: [("good", FileContent.parsed [Stmt.functionDef "f"])]))
        "m" "p" { value := 0 } false
      = get_names (ModPath.dir ([] ++ [("good", FileContent.parsed [Stmt.functionDef "f"])]))
        "m" "p" { value := 0 } false :=
  get_names_from_file_syntax_error_recovered
    [] [("good", FileContent.parsed [Stmt.functionDef "f"])]
    "bad" "m" "p" { value := 0 } false false (by decide)

end RopeParse

namespace RopeParse

/-- C8 (counterexample): importing `numpy` in a runtime where the import
raises an exception that is not an `ImportError` propagates the failure out of
the Reflective Extractor instead of yielding an empty result — only
`ImportError` is caught. -/
theorem get_names_from_compiled_uncaught_exception :
    get_names_from_compiled failing_runtime "numpy" { value := 0 } false
      = Except.error PyExn.importExn
    ∧ (Except.error PyExn.importExn : Except PyExn (List Name)) ≠ Except.ok [] :=
  ⟨rfl, by simp⟩

/-- C8 (amended): for every module identifier, if loading it fails with an
`ImportError` the Reflective Extractor returns an empty result and does not
propagate the failure. -/
theorem get_names_from_compiled_import_error_empty (runtime : String → ImportResult)
    (package : String) (source : Source) (u : Bool)
    (h : runtime package = ImportResult.importError) :
    get_names_from_compiled runtime package source u = Except.ok [] := by
  simp only [get_names_from_compiled]
  by_cases hguard : (["builtins", "python_crun"].contains package
      || (startswith_underscore package && !u)) = true
  · rw [if_pos hguard]
  · rw [if_neg hguard, h]

theorem get_names_from_compiled_import_error_empty_witness :
    get_names_from_compiled (fun _ => ImportResult.importError) "numpy" { value := 0 } false
      = Except.ok [] :=
  get_names_from_compiled_import_error_empty
    (fun _ => ImportResult.importError) "numpy" { value := 0 } false rfl

/-- C9: a deny-listed module identifier (`builtins` or `python_crun`), and an
underscore-prefixed identifier while `underlined` is false, yield an empty
result from the Reflective Extractor under EVERY runtime — in particular the
runtime is never consulted, so no load is attempted. -/
theorem get_names_from_compiled_denied_no_load (package : String) (source : Source)
    (u : Bool)
    (h : (package = "builtins" ∨ package = "python_crun")
         ∨ (startswith_underscore package = true ∧ u = false)) :
    ∀ runtime : String → ImportResult,
      get_names_from_compiled runtime package source u = Except.ok [] := by
  intro runtime
  have hguard : (["builtins", "python_crun"].contains package
      || (startswith_underscore package && !u)) = true := by
    rcases h with (h | h) | ⟨h1, h2⟩
    · subst h
      rw [show (["builtins", "python_crun"].contains "builtins") = true from rfl,
        Bool.true_or]
    · subst h
      rw [show (["builtins", "python_crun"].contains "python_crun") = true from rfl,
        Bool.true_or]
    · subst h2
      rw [h1]
      simp
  simp only [get_names_from_compiled]
  rw [if_pos hguard]

theorem get_names_from_compiled_denied_no_load_witness :
    get_names_from_compiled failing_runtime "builtins" { value := 5 } true
      = Except.ok []
    ∧ get_names_from_compiled failing_runtime "_private" { value := 5 } false
      = Except.ok [] :=
  ⟨get_names_from_compiled_denied_no_load "builtins" { value := 5 } true
      (Or.inl (Or.inl rfl)) failing_runtime,
   get_names_from_compiled_denied_no_load "_private" { value := 5 } false
      (Or.inr (by decide)) failing_runtime⟩

end RopeParse
